import Mathlib

/-!
Verification of the WaterInSand scatter-corrected normalization pipeline.

Images are modelled as 2-D grids of exact rationals (the notebook works on
numpy float arrays; exact rationals keep every arithmetic claim decidable).
The logarithm of the normalization is taken in `ℝ` via `Real.log`.
-/

set_option autoImplicit false
set_option linter.unusedVariables false

deriving instance DecidableEq for Except

namespace WaterInSand

/-- A 2-D image: row count, column count and a pixel lookup function.
Pixels outside the `nr x nc` grid are junk values never inspected by the
pipeline. This models the numpy 2-D float arrays of the notebook. -/
structure Image where
  nr : ℕ
  nc : ℕ
  px : ℕ → ℕ → ℚ

/-- A rectangular region of interest `[r0, r1) x [c0, c1)`, as used for the
dose region `img[r0:r1, c0:c1]` in the notebook. -/
structure ROI where
  r0 : ℕ
  c0 : ℕ
  r1 : ℕ
  c1 : ℕ

/-- The all-zero image of a given shape. -/
def zeroImage (nr nc : ℕ) : Image := ⟨nr, nc, fun _ _ => 0⟩

/-- Two images have the same shape. -/
def sameShape (a b : Image) : Prop := a.nr = b.nr ∧ a.nc = b.nc

instance (a b : Image) : Decidable (sameShape a b) := by
  unfold sameShape; infer_instance

/-- Translation of the notebook snippet `a[a<1]=1` (markdown cell 21d25b14):
every value below 1 is replaced by 1, scalar version. -/
def clamp1 (x : ℚ) : ℚ := if x < 1 then 1 else x

/-- Pixelwise difference of two images (numpy `a - b`). -/
def imSub (a b : Image) : Image := ⟨a.nr, a.nc, fun r c => a.px r c - b.px r c⟩

/-- Pixelwise application of `a[a<1]=1` to an image. -/
def imClamp (a : Image) : Image := ⟨a.nr, a.nc, fun r c => clamp1 (a.px r c)⟩

/-- Mean gray value over a rectangular ROI: the dose operator
`img[r0:r1, c0:c1].mean()` of the notebook. -/
def roiMean (a : Image) (roi : ROI) : ℚ :=
  (∑ r in Finset.Ico roi.r0 roi.r1, ∑ c in Finset.Ico roi.c0 roi.c1, a.px r c) /
    (((roi.r1 - roi.r0) * (roi.c1 - roi.c0) : ℕ) : ℚ)

/-- The ROI is non-empty and lies inside an `nr x nc` image. -/
def validROI (roi : ROI) (nr nc : ℕ) : Prop :=
  roi.r0 < roi.r1 ∧ roi.r1 ≤ nr ∧ roi.c0 < roi.c1 ∧ roi.c1 ≤ nc

instance (roi : ROI) (nr nc : ℕ) : Decidable (validROI roi nr nc) := by
  unfold validROI; infer_instance

/-- Errors of the normalization stage. -/
inductive NormError where
  | shapeMismatch
  deriving DecidableEq

/-- Modelled from the spec: the argument of the logarithm of the
Dose-Corrected Transmission Normalizer (notebook exercise cell 3ec3d9f0 is a
fill-in-the-blank; the pipeline follows markdown cells d5df1519, 21d25b14 and
0cfbb70f: subtract the dark current, clamp values below 1 to 1, and weight the
transmission by the dose ratio sampled over the dose ROI). -/
def normArg (I IDC IOB : Image) (roi : ROI) : Image :=
  let a := imClamp (imSub I IDC)
  let b := imClamp (imSub IOB IDC)
  ⟨I.nr, I.nc, fun r c => (a.px r c / b.px r c) * (roiMean b roi / roiMean a roi)⟩

/-- Modelled from the spec: the Dose-Corrected Transmission Normalizer up to
the logarithm; fails with `ShapeMismatch` when the three input images do not
share one shape. -/
def normalize (I IDC IOB : Image) (roi : ROI) : Except NormError Image :=
  if sameShape I IDC ∧ sameShape I IOB then .ok (normArg I IDC IOB roi)
  else .error .shapeMismatch

/-- A real-valued image, the type of the normalizer output `p = -log(...)`. -/
structure RImage where
  nr : ℕ
  nc : ℕ
  px : ℕ → ℕ → ℝ

/-- Modelled from the spec: the full Dose-Corrected Transmission Normalizer,
`p = -log` of the dose-weighted transmission. -/
noncomputable def normalizeP (I IDC IOB : Image) (roi : ROI) :
    Except NormError RImage :=
  (normalize I IDC IOB roi).map
    (fun a => ⟨a.nr, a.nc, fun r c => -Real.log ((a.px r c : ℚ) : ℝ)⟩)

/-- The spec's literal normalization formula
`p = -log( ((I - I_DC)/(I_OB - I_DC)) * (D(I_OB - I_DC)/D(I - I_DC)) )`,
written without the clamp, used to compare the implemented pipeline against
the claimed closed form. -/
noncomputable def specNormP (I IDC IOB : Image) (roi : ROI) : RImage :=
  ⟨I.nr, I.nc, fun r c =>
    -Real.log ((((I.px r c - IDC.px r c) / (IOB.px r c - IDC.px r c)) *
      (roiMean (imSub IOB IDC) roi / roiMean (imSub I IDC) roi) : ℚ) : ℝ)⟩

/-! ## Black-body dot locator (notebook cell 7b3bc7e3, `get_bb_info`) -/

/-- A binary mask image, such as the notebook's `bbmask`. -/
structure Mask where
  nr : ℕ
  nc : ℕ
  px : ℕ → ℕ → Bool

/-- A pixel coordinate (row, column). -/
abbrev Pos := ℕ × ℕ

/-- Foreground pixels of a mask in raster (row-major) order. -/
def fgList (m : Mask) : List Pos :=
  (List.range m.nr).flatMap (fun r =>
    (List.range m.nc).filterMap (fun c => if m.px r c then some (r, c) else none))

/-- 8-neighbourhood adjacency of two distinct pixels. -/
def adj8 (p q : Pos) : Bool :=
  decide (p ≠ q ∧ ((p.1 : ℤ) - q.1).natAbs ≤ 1 ∧ ((p.2 : ℤ) - q.2).natAbs ≤ 1)

/-- One step of connected-component growth: add every foreground pixel
adjacent to the current set. -/
def expandOnce (fg s : List Pos) : List Pos :=
  (s ++ fg.filter (fun q => s.any (fun p => adj8 p q))).dedup

/-- `n` growth steps. -/
def expandN (fg : List Pos) : ℕ → List Pos → List Pos
  | 0, s => s
  | n + 1, s => expandN fg n (expandOnce fg s)

/-- The connected component of `p` (8-connectivity) within the foreground:
`fg.length` growth steps reach a fixpoint. -/
def component (fg : List Pos) (p : Pos) : List Pos := expandN fg fg.length [p]

/-- Translation of `skimage.measure.label` (default full 8-connectivity)
followed by `regionprops`: the connected components of the mask, ordered by
label; entry `i` of the list is the region with label `i + 1`, labels being
assigned in raster order of first encounter. -/
def components (m : Mask) : List (List Pos) :=
  (fgList m).foldl
    (fun comps p =>
      if comps.any (fun comp => comp.contains p) then comps
      else comps ++ [component (fgList m) p]) []

/-- Row coordinate of a region's centroid (`region.centroid[0]`). -/
def centR (comp : List Pos) : ℚ :=
  (comp.map (fun p => (p.1 : ℚ))).sum / comp.length

/-- Column coordinate of a region's centroid (`region.centroid[1]`). -/
def centC (comp : List Pos) : ℚ :=
  (comp.map (fun p => (p.2 : ℚ))).sum / comp.length

/-- Translation of `skimage.draw.disk((x, y), R)` called without a `shape`
argument: every integer pixel strictly inside the circle of radius `R` around
the (possibly fractional) centre, in row-major order, with no clipping — the
coordinates may be negative or exceed the image extent. -/
def diskCoords (x y R : ℚ) : List (ℤ × ℤ) :=
  (List.range ((x + R).floor - (x - R).ceil + 1).toNat).flatMap (fun i =>
    (List.range ((y + R).floor - (y - R).ceil + 1).toNat).filterMap (fun j =>
      let r := (x - R).ceil + i
      let c := (y - R).ceil + j
      if ((r : ℚ) - x) ^ 2 + ((c : ℚ) - y) ^ 2 < R ^ 2 then some (r, c) else none))

/-- An integer coordinate pair numpy accepts for an image: each axis index
lies in `[-n, n)`. -/
def validIdx (img : Image) (rc : ℤ × ℤ) : Prop :=
  -(img.nr : ℤ) ≤ rc.1 ∧ rc.1 < img.nr ∧ -(img.nc : ℤ) ≤ rc.2 ∧ rc.2 < img.nc

instance (img : Image) (rc : ℤ × ℤ) : Decidable (validIdx img rc) := by
  unfold validIdx; infer_instance

/-- numpy integer indexing `img[r, c]`: a negative index within range counts
from the end of the axis; an index outside `[-n, n)` raises `IndexError`. -/
def npGet (img : Image) (rc : ℤ × ℤ) : Except String ℚ :=
  if validIdx img rc then
    .ok (img.px (rc.1 % (img.nr : ℤ)).toNat (rc.2 % (img.nc : ℤ)).toNat)
  else .error "IndexError"

/-- Effectful map over a list in the `Except` monad, stopping at the first
error (the order in which numpy fancy indexing touches the coordinates). -/
def mapE {α β : Type} (f : α → Except String β) : List α → Except String (List β)
  | [] => .ok []
  | a :: l => do
    let b ← f a
    let bs ← mapE f l
    pure (b :: bs)

/-- `np.mean` of a 1-D array. -/
def listMean (l : List ℚ) : ℚ := l.sum / l.length

/-- `np.median` of a 1-D array: the middle element of the sorted data, or the
average of the two middle elements when the length is even. -/
def listMedian (l : List ℚ) : ℚ :=
  let s := l.insertionSort (· ≤ ·)
  if l.length % 2 = 1 then s.getD (l.length / 2) 0
  else (s.getD (l.length / 2 - 1) 0 + s.getD (l.length / 2) 0) / 2

/-- One row of the dataframe `get_bb_info` returns. -/
structure DotRec where
  label : ℕ
  mean : ℚ
  median : ℚ
  r : ℚ
  c : ℚ
  deriving DecidableEq

/-- The body of the `get_bb_info` loop for one labeled region: centroid,
`disk` sampling, numpy indexing, mean and median. -/
def dotRecord (img : Image) (R : ℚ) (lab : ℕ) (comp : List Pos) :
    Except String DotRec := do
  let x := centR comp
  let y := centC comp
  let dotdata ← mapE (npGet img) (diskCoords x y R)
  pure { label := lab, mean := listMean dotdata, median := listMedian dotdata,
         r := x, c := y }

/-- Translation of the notebook's `get_bb_info(img, mask, R)` (cell 7b3bc7e3).
The body calls `label(bbmask)` on the notebook-global `bbmask`, not on its
`mask` parameter; the captured global is made an explicit first argument here
and the unused parameter `mask` is kept as in the source. -/
def get_bb_info (bbmask : Mask) (img : Image) (mask : Mask) (R : ℚ) :
    Except String (List DotRec) :=
  mapE (fun ic => dotRecord img R (ic.1 + 1) ic.2) (components bbmask).enum

/-- Total version of numpy indexing on indices known to be in range. -/
def npGetTotal (img : Image) (rc : ℤ × ℤ) : ℚ :=
  img.px (rc.1 % (img.nr : ℤ)).toNat (rc.2 % (img.nc : ℤ)).toNat

/-- The target values sampled by the radius-`R` disk around a component's
centroid, assuming all its coordinates are in range. -/
def diskVals (img : Image) (comp : List Pos) (R : ℚ) : List ℚ :=
  (diskCoords (centR comp) (centC comp) R).map (npGetTotal img)

/-- The Dot Record `get_bb_info` produces for component `ic.2` at 0-based
index `ic.1`, when its disk raises no `IndexError`. -/
def recOf (img : Image) (R : ℚ) (ic : ℕ × List Pos) : DotRec :=
  { label := ic.1 + 1, mean := listMean (diskVals img ic.2 R),
    median := listMedian (diskVals img ic.2 R), r := centR ic.2, c := centC ic.2 }

/-! ## Attenuation coefficient fitter (markdown cell 81dd2b12) -/

/-- Error of the attenuation coefficient fitter. -/
inductive FitError where
  | insufficientPoints
  deriving DecidableEq

/-- Modelled from the spec: the Attenuation Coefficient Fitter. The notebook
cell 7cf65cca is fill-in-the-blank with the hint `m,b=np.polyfit(x,y,1)`; per
spec section 4.5 the fitter rejects fewer than 2 distinct thickness values
with `InsufficientPoints` and otherwise returns the free-intercept
least-squares line as (slope, intercept), here by the closed-form solution of
the normal equations. -/
def polyfit1 (pts : List (ℚ × ℚ)) : Except FitError (ℚ × ℚ) :=
  if (pts.map Prod.fst).dedup.length < 2 then .error .insufficientPoints
  else
    let n : ℚ := pts.length
    let sx := (pts.map Prod.fst).sum
    let sy := (pts.map Prod.snd).sum
    let sxx := (pts.map (fun p => p.1 * p.1)).sum
    let sxy := (pts.map (fun p => p.1 * p.2)).sum
    let m := (n * sxy - sx * sy) / (n * sxx - sx * sx)
    .ok (m, (sy - m * sx) / n)

/-- Residual sum of squares of the line `y = m x + b` on the data points. -/
def sse (pts : List (ℚ × ℚ)) (m b : ℚ) : ℚ :=
  (pts.map (fun p => (p.2 - (m * p.1 + b)) ^ 2)).sum

/-! ## Front-position tracker (cells 2a7a57f7 and 447767d7) -/

/-- Modelled from the spec: the Front-Position Tracker's per-column front
position. The extraction cell 1c5fc473 is fill-in-the-blank; per spec
section 4.6 and the thresholding cell `bi_yt = yt<threshold`, the position is
the first row whose value crosses (falls below) the threshold, and a column
with no crossing yields the sentinel `none` rather than index 0. -/
def frontPos (yt : Image) (threshold : ℚ) (t : ℕ) : Option ℕ :=
  (List.range yt.nr).find? (fun r => decide (yt.px r t < threshold))

/-! ## Scatter-surface estimator (cell 0c7ada4c, `bb.compute_scatter_image_from_df`) -/

/-- Error of the scatter-surface estimator. -/
inductive ScatterError where
  | insufficientSamples
  deriving DecidableEq

/-- The 6 monomials of a full 2nd-degree polynomial in (row, col). -/
def poly2Basis (r c : ℚ) : Fin 6 → ℚ := ![1, r, c, r * r, r * c, c * c]

/-- Least-squares coefficients of the 2nd-degree surface through the
(row, col, value) samples, from the normal equations, the system matrix
inverted through its adjugate (a singular system yields the zero solution). -/
def poly2Coeffs (samples : List (ℚ × ℚ × ℚ)) : Fin 6 → ℚ :=
  let A : Matrix (Fin 6) (Fin 6) ℚ :=
    (samples.map (fun s => Matrix.vecMulVec (poly2Basis s.1 s.2.1) (poly2Basis s.1 s.2.1))).sum
  let v : Fin 6 → ℚ := (samples.map (fun s => s.2.2 • poly2Basis s.1 s.2.1)).sum
  (A.det⁻¹ • A.adjugate).mulVec v

/-- The (row, col, statistic) sample one Dot Record contributes, with the
caller-selectable mean/median statistic (`info` in the notebook). -/
def recSample (useMedian : Bool) (d : DotRec) : ℚ × ℚ × ℚ :=
  (d.r, d.c, if useMedian then d.median else d.mean)

/-- Modelled from the spec: the Scatter-Surface Estimator
(`bb.compute_scatter_image_from_df`, whose implementation lives in the
external `amglib` module and is not part of this repository). Per spec
section 4.3 it fits a smooth 2nd-degree polynomial surface through the sparse
per-dot samples and evaluates it at every pixel of the target shape, and
fails with `InsufficientSamples` on fewer than 4 samples. -/
def compute_scatter_image_from_df (recs : List DotRec) (nr nc : ℕ)
    (useMedian : Bool) : Except ScatterError Image :=
  if recs.length < 4 then .error .insufficientSamples
  else
    let w := poly2Coeffs (recs.map (recSample useMedian))
    .ok ⟨nr, nc, fun r c => ∑ j, w j * poly2Basis (r : ℚ) (c : ℚ) j⟩

/-- Three of the sample positions do not lie on one line. -/
def NonCollinear (samples : List (ℚ × ℚ × ℚ)) : Prop :=
  ∃ p ∈ samples, ∃ q ∈ samples, ∃ t ∈ samples,
    (q.1 - p.1) * (t.2.1 - p.2.1) ≠ (t.1 - p.1) * (q.2.1 - p.2.1)

instance (samples : List (ℚ × ℚ × ℚ)) : Decidable (NonCollinear samples) := by
  unfold NonCollinear; infer_instance

/-! ## Lemmas about the clamp and the dose mean -/

theorem clamp1_of_lt {x : ℚ} (h : x < 1) : clamp1 x = 1 := if_pos h

theorem clamp1_of_ge {x : ℚ} (h : 1 ≤ x) : clamp1 x = x := if_neg (not_lt.mpr h)

theorem clamp1_ge_one (x : ℚ) : 1 ≤ clamp1 x := by
  by_cases h : x < 1
  · rw [clamp1_of_lt h]
  · rw [clamp1_of_ge (not_lt.mp h)]; exact not_lt.mp h

theorem clamp1_pos (x : ℚ) : 0 < clamp1 x :=
  lt_of_lt_of_le zero_lt_one (clamp1_ge_one x)

theorem clamp1_idem (x : ℚ) : clamp1 (clamp1 x) = clamp1 x :=
  clamp1_of_ge (clamp1_ge_one x)

theorem roiMean_ge_one (a : Image) (roi : ROI) (h : ∀ r c, 1 ≤ a.px r c)
    (hr : roi.r0 < roi.r1) (hc : roi.c0 < roi.c1) : 1 ≤ roiMean a roi := by
  unfold roiMean
  have hn : (0 : ℚ) < (((roi.r1 - roi.r0) * (roi.c1 - roi.c0) : ℕ) : ℚ) := by
    exact_mod_cast Nat.mul_pos (Nat.sub_pos_of_lt hr) (Nat.sub_pos_of_lt hc)
  rw [le_div_iff₀ hn, one_mul]
  calc (((roi.r1 - roi.r0) * (roi.c1 - roi.c0) : ℕ) : ℚ)
      = ∑ _r in Finset.Ico roi.r0 roi.r1, (((roi.c1 - roi.c0 : ℕ)) : ℚ) := by
        rw [Finset.sum_const, Nat.card_Ico, nsmul_eq_mul]
        push_cast
        ring
    _ ≤ ∑ r in Finset.Ico roi.r0 roi.r1, ∑ c in Finset.Ico roi.c0 roi.c1, a.px r c := by
        refine Finset.sum_le_sum fun r _ => ?_
        have := Finset.card_nsmul_le_sum (Finset.Ico roi.c0 roi.c1)
          (fun c => a.px r c) 1 (fun c _ => h r c)
        rwa [Nat.card_Ico, nsmul_eq_mul, mul_one] at this

theorem roiMean_clamp_pos (x : Image) (roi : ROI)
    (hr : roi.r0 < roi.r1) (hc : roi.c0 < roi.c1) :
    0 < roiMean (imClamp x) roi :=
  lt_of_lt_of_le zero_lt_one
    (roiMean_ge_one _ roi (fun _ _ => clamp1_ge_one _) hr hc)

theorem normArg_px (I IDC IOB : Image) (roi : ROI) (r c : ℕ) :
    (normArg I IDC IOB roi).px r c =
      (clamp1 (I.px r c - IDC.px r c) / clamp1 (IOB.px r c - IDC.px r c)) *
        (roiMean (imClamp (imSub IOB IDC)) roi /
          roiMean (imClamp (imSub I IDC)) roi) := rfl

/-! ## Claims about the Dose-Corrected Transmission Normalizer -/

/-- C3: in the normalizer every dark-current-subtracted value strictly below 1
is clamped to exactly 1 before the ratio and the logarithm, and as a result
the argument of the logarithm is strictly positive at every pixel — so the
output `-log` is a finite real number with no NaN or infinity — for every
input, including adversarial inputs containing zeros, whenever the shapes
agree and the dose ROI is non-empty. -/
theorem C3_clamp_no_nan (I IDC IOB : Image) (roi : ROI)
    (h1 : sameShape I IDC) (h2 : sameShape I IOB)
    (hr : roi.r0 < roi.r1) (hc : roi.c0 < roi.c1) :
    (∀ x : ℚ, x < 1 → clamp1 x = 1) ∧
    ∃ a, normalize I IDC IOB roi = .ok a ∧ ∀ r c, 0 < a.px r c := by
  refine ⟨fun x hx => clamp1_of_lt hx, normArg I IDC IOB roi, ?_, fun r c => ?_⟩
  · unfold normalize
    exact if_pos ⟨h1, h2⟩
  · rw [normArg_px]
    exact mul_pos (div_pos (clamp1_pos _) (clamp1_pos _))
      (div_pos (roiMean_clamp_pos _ roi hr hc) (roiMean_clamp_pos _ roi hr hc))

/-- Witness for C3 at a concrete adversarial all-zero input. -/
theorem C3_witness :
    (∀ x : ℚ, x < 1 → clamp1 x = 1) ∧
    ∃ a, normalize (zeroImage 2 2) (zeroImage 2 2) (zeroImage 2 2) ⟨0, 0, 2, 2⟩ =
        .ok a ∧ ∀ r c, 0 < a.px r c :=
  C3_clamp_no_nan (zeroImage 2 2) (zeroImage 2 2) (zeroImage 2 2) ⟨0, 0, 2, 2⟩
    ⟨rfl, rfl⟩ ⟨rfl, rfl⟩ (by decide) (by decide)

/-- C6: with `I_OB = I` and `I_DC = 0` the normalizer output is 0 at every
pixel, for any non-empty dose ROI. -/
theorem C6_unit_transmission (I : Image) (roi : ROI)
    (hr : roi.r0 < roi.r1) (hc : roi.c0 < roi.c1) :
    ∃ p, normalizeP I (zeroImage I.nr I.nc) I roi = .ok p ∧ ∀ r c, p.px r c = 0 := by
  have hok : normalize I (zeroImage I.nr I.nc) I roi =
      .ok (normArg I (zeroImage I.nr I.nc) I roi) := by
    unfold normalize
    exact if_pos ⟨⟨rfl, rfl⟩, ⟨rfl, rfl⟩⟩
  refine ⟨_, by rw [normalizeP, hok]; rfl, fun r c => ?_⟩
  have harg : (normArg I (zeroImage I.nr I.nc) I roi).px r c = 1 := by
    rw [normArg_px]
    rw [div_self (ne_of_gt (clamp1_pos _)),
      div_self (ne_of_gt (roiMean_clamp_pos _ roi hr hc)), one_mul]
  show -Real.log (((normArg I (zeroImage I.nr I.nc) I roi).px r c : ℚ) : ℝ) = 0
  rw [harg, Rat.cast_one, Real.log_one, neg_zero]

/-- Witness for C6: two identical 4x4 images, zero dark current, dose ROI the
full image; the output is the 4x4 zero matrix. -/
theorem C6_witness :
    ∃ p, normalizeP ⟨4, 4, fun _ _ => 3⟩ (zeroImage 4 4) ⟨4, 4, fun _ _ => 3⟩
        ⟨0, 0, 4, 4⟩ = .ok p ∧ ∀ r c, p.px r c = 0 :=
  C6_unit_transmission ⟨4, 4, fun _ _ => 3⟩ ⟨0, 0, 4, 4⟩ (by decide) (by decide)

/-- C10: the clamp leaves every pixel with value at least 1 unchanged, and
applying it twice gives the same image as applying it once. -/
theorem C10_clamp_frame_idem (a : Image) :
    (∀ r c, 1 ≤ a.px r c → (imClamp a).px r c = a.px r c) ∧
    imClamp (imClamp a) = imClamp a := by
  constructor
  · intro r c h
    exact clamp1_of_ge h
  · show Image.mk _ _ _ = Image.mk _ _ _
    congr 1
    funext r c
    exact clamp1_idem (a.px r c)

/-- Witness for C10 at a concrete image with a pixel value of 3 at least 1. -/
theorem C10_witness :
    (imClamp ⟨1, 1, fun _ _ => 3⟩).px 0 0 = (3 : ℚ) ∧
    imClamp (imClamp ⟨1, 1, fun _ _ => 3⟩) = imClamp ⟨1, 1, fun _ _ => 3⟩ :=
  ⟨(C10_clamp_frame_idem ⟨1, 1, fun _ _ => 3⟩).1 0 0 (by decide),
   (C10_clamp_frame_idem ⟨1, 1, fun _ _ => 3⟩).2⟩

theorem roiMean_imClamp_of_ge (x : Image) (roi : ROI)
    (h : ∀ r, roi.r0 ≤ r → r < roi.r1 → ∀ c, roi.c0 ≤ c → c < roi.c1 →
      1 ≤ x.px r c) :
    roiMean (imClamp x) roi = roiMean x roi := by
  unfold roiMean
  congr 1
  refine Finset.sum_congr rfl fun r hr => Finset.sum_congr rfl fun c hc => ?_
  rw [Finset.mem_Ico] at hr hc
  exact clamp1_of_ge (h r hr.1 hr.2 c hc.1 hc.2)

/-- C1 (amended): on inputs of one shape with a valid dose ROI whose
dark-current-subtracted values are everywhere at least 1 (so the clamp is the
identity), the normalizer returns exactly the claimed image
`p = -log( ((I - I_DC)/(I_OB - I_DC)) * (D(I_OB - I_DC)/D(I - I_DC)) )`,
and the output has the shape of the inputs. -/
theorem C1_formula_with_clamp (I IDC IOB : Image) (roi : ROI)
    (h1 : sameShape I IDC) (h2 : sameShape I IOB)
    (hroi : validROI roi I.nr I.nc)
    (hI : ∀ r, r < I.nr → ∀ c, c < I.nc → 1 ≤ I.px r c - IDC.px r c)
    (hOB : ∀ r, r < I.nr → ∀ c, c < I.nc → 1 ≤ IOB.px r c - IDC.px r c) :
    ∃ p, normalizeP I IDC IOB roi = .ok p ∧ p.nr = I.nr ∧ p.nc = I.nc ∧
      ∀ r, r < I.nr → ∀ c, c < I.nc →
        p.px r c = (specNormP I IDC IOB roi).px r c := by
  obtain ⟨hr0, hr1, hc0, hc1⟩ := hroi
  have hok : normalize I IDC IOB roi = .ok (normArg I IDC IOB roi) := by
    unfold normalize
    exact if_pos ⟨h1, h2⟩
  refine ⟨_, by rw [normalizeP, hok]; rfl, rfl, rfl, fun r hr c hc => ?_⟩
  show -Real.log (((normArg I IDC IOB roi).px r c : ℚ) : ℝ) = _
  have hmI : roiMean (imClamp (imSub I IDC)) roi = roiMean (imSub I IDC) roi :=
    roiMean_imClamp_of_ge _ roi fun r _ hrb c _ hcb =>
      hI r (lt_of_lt_of_le hrb hr1) c (lt_of_lt_of_le hcb hc1)
  have hmOB : roiMean (imClamp (imSub IOB IDC)) roi = roiMean (imSub IOB IDC) roi :=
    roiMean_imClamp_of_ge _ roi fun r _ hrb c _ hcb =>
      hOB r (lt_of_lt_of_le hrb hr1) c (lt_of_lt_of_le hcb hc1)
  rw [normArg_px, clamp1_of_ge (hI r hr c hc), clamp1_of_ge (hOB r hr c hc),
    hmI, hmOB]
  rfl

/-! ## Claims about the Black-Body Dot Locator -/

theorem mapE_ok {α β : Type} (f : α → Except String β) (g : α → β) (l : List α)
    (h : ∀ a ∈ l, f a = .ok (g a)) : mapE f l = .ok (l.map g) := by
  induction l with
  | nil => rfl
  | cons a t ih =>
    show (do
      let b ← f a
      let bs ← mapE f t
      pure (b :: bs)) = Except.ok ((a :: t).map g)
    rw [h a (List.mem_cons_self a t), ih fun x hx => h x (List.mem_cons_of_mem a hx)]
    rfl

theorem npGet_ok (img : Image) (rc : ℤ × ℤ) (h : validIdx img rc) :
    npGet img rc = .ok (npGetTotal img rc) := by
  unfold npGet npGetTotal
  rw [if_pos h]

theorem dotRecord_ok (img : Image) (R : ℚ) (lab : ℕ) (comp : List Pos)
    (h : ∀ rc ∈ diskCoords (centR comp) (centC comp) R, validIdx img rc) :
    dotRecord img R lab comp = .ok
      { label := lab, mean := listMean (diskVals img comp R),
        median := listMedian (diskVals img comp R),
        r := centR comp, c := centC comp } := by
  unfold diskVals
  simp only [dotRecord]
  rw [mapE_ok (npGet img) (npGetTotal img) _ fun rc hrc => npGet_ok img rc (h rc hrc)]
  rfl

theorem snd_mem_of_mem_enum {α : Type} {l : List α} {ic : ℕ × α}
    (h : ic ∈ l.enum) : ic.2 ∈ l := by
  obtain ⟨i, a⟩ := ic
  rw [List.enum_eq_zip_range] at h
  exact (List.of_mem_zip h).2

/-- C4 (amended): when `get_bb_info` is applied to the mask it actually labels
(its captured global `bbmask`) and every component's sampling disk stays on
numpy-valid indices, it returns exactly one Dot Record per connected component
of that mask — so exactly k records for k components, and the empty collection
(not an error) for zero components — ordered by label `i + 1` at position `i`,
each record carrying the component's label, its centroid (row, col) and the
mean and the median of the target pixels inside the radius-`R` disk centred at
that centroid. -/
theorem C4_records (bbmask : Mask) (img : Image) (mask : Mask) (R : ℚ)
    (hmask : mask = bbmask)
    (hin : ∀ comp ∈ components bbmask,
      ∀ rc ∈ diskCoords (centR comp) (centC comp) R, validIdx img rc) :
    get_bb_info bbmask img mask R =
      .ok ((components mask).enum.map (recOf img R)) ∧
    ((components mask).enum.map (recOf img R)).length =
      (components mask).length ∧
    ∀ i, ∀ hi : i < ((components mask).enum.map (recOf img R)).length,
      (((components mask).enum.map (recOf img R)).get ⟨i, hi⟩).label = i + 1 := by
  subst hmask
  refine ⟨?_, by simp, fun i hi => ?_⟩
  · unfold get_bb_info
    refine mapE_ok _ (recOf img R) _ fun ic hic => ?_
    exact dotRecord_ok img R (ic.1 + 1) ic.2 (hin ic.2 (snd_mem_of_mem_enum hic))
  · simp only [List.length_map, List.enum_length] at hi
    simp only [List.get_eq_getElem, List.getElem_map,
      List.getElem_enum, recOf]

/-! ## Claim about the Attenuation Coefficient Fitter -/

theorem sum_map_linear (pts : List (ℚ × ℚ)) (m b : ℚ) :
    (pts.map (fun p => p.2 - (m * p.1 + b))).sum =
      (pts.map Prod.snd).sum - m * (pts.map Prod.fst).sum -
        (pts.length : ℚ) * b := by
  induction pts with
  | nil => simp
  | cons p t ih =>
    simp only [List.map_cons, List.sum_cons, ih, List.length_cons]
    push_cast
    ring

theorem sum_map_x_mul (pts : List (ℚ × ℚ)) (m b : ℚ) :
    (pts.map (fun p => p.1 * (p.2 - (m * p.1 + b)))).sum =
      (pts.map (fun p => p.1 * p.2)).sum -
        m * (pts.map (fun p => p.1 * p.1)).sum -
        b * (pts.map Prod.fst).sum := by
  induction pts with
  | nil => simp
  | cons p t ih =>
    simp only [List.map_cons, List.sum_cons, ih]
    ring

theorem sum_sq_dev (xs : List ℚ) (c : ℚ) :
    (xs.map (fun x => (x - c) ^ 2)).sum =
      (xs.map (fun x => x * x)).sum - 2 * c * xs.sum +
        (xs.length : ℚ) * c ^ 2 := by
  induction xs with
  | nil => simp
  | cons x t ih =>
    simp only [List.map_cons, List.sum_cons, ih, List.length_cons]
    push_cast
    ring

theorem sum_sq_add (pts : List (ℚ × ℚ)) (f g : ℚ × ℚ → ℚ) :
    (pts.map (fun p => (f p + g p) ^ 2)).sum =
      (pts.map (fun p => f p ^ 2)).sum +
        2 * (pts.map (fun p => f p * g p)).sum +
        (pts.map (fun p => g p ^ 2)).sum := by
  induction pts with
  | nil => simp
  | cons p t ih =>
    simp only [List.map_cons, List.sum_cons, ih]
    ring

theorem sum_mul_lin (pts : List (ℚ × ℚ)) (q : ℚ × ℚ → ℚ) (u v : ℚ) :
    (pts.map (fun p => q p * (u * p.1 + v))).sum =
      u * (pts.map (fun p => p.1 * q p)).sum + v * (pts.map q).sum := by
  induction pts with
  | nil => simp
  | cons p t ih =>
    simp only [List.map_cons, List.sum_cons, ih]
    ring

theorem two_distinct_of_dedup {xs : List ℚ} (h : 2 ≤ xs.dedup.length) :
    ∃ a ∈ xs, ∃ b ∈ xs, a ≠ b := by
  rcases hd : xs.dedup with _ | ⟨a, _ | ⟨b, t⟩⟩
  · rw [hd] at h
    simp at h
  · rw [hd] at h
    simp at h
  · have hnd := xs.nodup_dedup
    rw [hd] at hnd
    have hab : a ≠ b := fun e =>
      (List.nodup_cons.mp hnd).1 (e ▸ List.mem_cons_self b t)
    have ham : a ∈ xs := by
      rw [← List.mem_dedup, hd]
      exact List.mem_cons_self a (b :: t)
    have hbm : b ∈ xs := by
      rw [← List.mem_dedup, hd]
      exact List.mem_cons_of_mem a (List.mem_cons_self b t)
    exact ⟨a, ham, b, hbm, hab⟩

theorem den_pos_of_two_distinct {xs : List ℚ} {a b : ℚ}
    (ha : a ∈ xs) (hb : b ∈ xs) (hab : a ≠ b) :
    0 < (xs.length : ℚ) * (xs.map (fun x => x * x)).sum - xs.sum * xs.sum := by
  have hlen0 : 0 < xs.length := List.length_pos.mpr (List.ne_nil_of_mem ha)
  have hlen : (0 : ℚ) < xs.length := by exact_mod_cast hlen0
  have hne : (xs.length : ℚ) ≠ 0 := ne_of_gt hlen
  have hall : ∀ y ∈ xs.map (fun x => (x - xs.sum / xs.length) ^ 2), 0 ≤ y := by
    intro y hy
    obtain ⟨x, _, rfl⟩ := List.mem_map.mp hy
    exact sq_nonneg _
  have hone : a - xs.sum / xs.length ≠ 0 ∨ b - xs.sum / xs.length ≠ 0 := by
    by_contra hcon
    push_neg at hcon
    exact hab (by linarith [sub_eq_zero.mp hcon.1, sub_eq_zero.mp hcon.2])
  have hpos : 0 < (xs.map (fun x => (x - xs.sum / xs.length) ^ 2)).sum := by
    obtain hda | hdb := hone
    · exact lt_of_lt_of_le
        (lt_of_le_of_ne (sq_nonneg _) (Ne.symm (pow_ne_zero 2 hda)))
        (List.single_le_sum hall _ (List.mem_map_of_mem _ ha))
    · exact lt_of_lt_of_le
        (lt_of_le_of_ne (sq_nonneg _) (Ne.symm (pow_ne_zero 2 hdb)))
        (List.single_le_sum hall _ (List.mem_map_of_mem _ hb))
  rw [sum_sq_dev] at hpos
  have key : (xs.map (fun x => x * x)).sum - 2 * (xs.sum / xs.length) * xs.sum +
      (xs.length : ℚ) * (xs.sum / xs.length) ^ 2 =
      ((xs.length : ℚ) * (xs.map (fun x => x * x)).sum - xs.sum * xs.sum) /
        xs.length := by
    field_simp
    ring
  rw [key] at hpos
  have := mul_pos hpos hlen
  rwa [div_mul_cancel₀ _ hne] at this

theorem closed_form_normal_eqs (S0 Sx Sy Sxx Sxy m b : ℚ)
    (hden : S0 * Sxx - Sx * Sx ≠ 0) (hS0 : S0 ≠ 0)
    (hm : m = (S0 * Sxy - Sx * Sy) / (S0 * Sxx - Sx * Sx))
    (hb : b = (Sy - m * Sx) / S0) :
    Sy - m * Sx - S0 * b = 0 ∧ Sxy - m * Sxx - b * Sx = 0 := by
  subst hm
  subst hb
  constructor
  · field_simp
    ring
  · field_simp
    ring

/-- C8: the fitter fails with `InsufficientPoints` exactly when fewer than 2
distinct thickness values are supplied; with at least 2 distinct thicknesses
it returns a pair (slope, intercept) that is the least-squares first-degree
fit: its residual sum of squares is minimal among all lines. -/
theorem C8_polyfit (pts : List (ℚ × ℚ)) :
    (polyfit1 pts = .error .insufficientPoints ↔
      (pts.map Prod.fst).dedup.length < 2) ∧
    ∀ m b, polyfit1 pts = .ok (m, b) →
      ∀ m' b', sse pts m b ≤ sse pts m' b' := by
  constructor
  · by_cases h : (pts.map Prod.fst).dedup.length < 2
    · simp [polyfit1, h]
    · simp [polyfit1, h]
  · intro m b hok m' b'
    unfold polyfit1 at hok
    by_cases h : (pts.map Prod.fst).dedup.length < 2
    · rw [if_pos h] at hok
      exact absurd hok (by simp)
    rw [if_neg h] at hok
    simp only at hok
    obtain ⟨hm, hb⟩ := Prod.mk.inj (Except.ok.inj hok)
    have h2 : 2 ≤ (pts.map Prod.fst).dedup.length := not_lt.mp h
    obtain ⟨a, haa, bb, hbb, hab⟩ := two_distinct_of_dedup h2
    have hlen0 : 0 < pts.length := by
      have hm0 := List.length_pos.mpr (List.ne_nil_of_mem haa)
      rwa [List.length_map] at hm0
    have hnq : (0 : ℚ) < pts.length := by exact_mod_cast hlen0
    have hnne : (pts.length : ℚ) ≠ 0 := ne_of_gt hnq
    have hdenpos : 0 < (pts.length : ℚ) * (pts.map (fun p => p.1 * p.1)).sum -
        (pts.map Prod.fst).sum * (pts.map Prod.fst).sum := by
      have hd := den_pos_of_two_distinct haa hbb hab
      rw [List.length_map, List.map_map] at hd
      exact hd
    rw [hm] at hb
    obtain ⟨hNE1, hNE2⟩ := closed_form_normal_eqs (pts.length : ℚ)
      (pts.map Prod.fst).sum (pts.map Prod.snd).sum
      (pts.map (fun p => p.1 * p.1)).sum (pts.map (fun p => p.1 * p.2)).sum
      m b (ne_of_gt hdenpos) hnne hm.symm hb.symm
    have hq1 : (pts.map (fun p => p.2 - (m * p.1 + b))).sum = 0 := by
      rw [sum_map_linear]
      linarith
    have hq2 : (pts.map (fun p => p.1 * (p.2 - (m * p.1 + b)))).sum = 0 := by
      rw [sum_map_x_mul]
      linarith
    unfold sse
    have hptw : (fun p : ℚ × ℚ => (p.2 - (m' * p.1 + b')) ^ 2) =
        fun p : ℚ × ℚ =>
          ((p.2 - (m * p.1 + b)) + ((m - m') * p.1 + (b - b'))) ^ 2 := by
      funext p
      ring
    rw [hptw, sum_sq_add pts (fun p => p.2 - (m * p.1 + b))
      (fun p => (m - m') * p.1 + (b - b'))]
    have hcross :
        (pts.map (fun p => (p.2 - (m * p.1 + b)) *
          ((m - m') * p.1 + (b - b')))).sum = 0 := by
      rw [sum_mul_lin pts (fun p => p.2 - (m * p.1 + b)) (m - m') (b - b')]
      rw [hq1, hq2]
      ring
    have hd2 : 0 ≤ (pts.map (fun p => ((m - m') * p.1 + (b - b')) ^ 2)).sum := by
      refine List.sum_nonneg fun y hy => ?_
      obtain ⟨x, _, rfl⟩ := List.mem_map.mp hy
      exact sq_nonneg _
    rw [hcross]
    have hsq : (pts.map (fun p => (p.2 - (m * p.1 + b)) ^ 2)).sum =
        sse pts m b := rfl
    linarith [hd2]

/-! ## Claim about the Front-Position Tracker -/

/-- C7: when no pixel of time column `t` crosses (falls below) the threshold,
the tracker reports the distinct sentinel `none` for that time step, and in
particular never reports position 0 for such a column. -/
theorem C7_sentinel (yt : Image) (threshold : ℚ) (t : ℕ)
    (h : ∀ r, r < yt.nr → ¬(yt.px r t < threshold)) :
    frontPos yt threshold t = none ∧ frontPos yt threshold t ≠ some 0 := by
  have hn : frontPos yt threshold t = none := by
    unfold frontPos
    refine List.find?_eq_none.mpr fun r hr => ?_
    simp only [decide_eq_true_eq]
    exact h r (List.mem_range.mp hr)
  refine ⟨hn, ?_⟩
  rw [hn]
  exact fun hc => Option.noConfusion hc

/-- Witness for C7: a 2x1 space-time column entirely above the threshold. -/
theorem C7_witness :
    frontPos ⟨2, 1, fun _ _ => 5⟩ 3 0 = none ∧
    frontPos ⟨2, 1, fun _ _ => 5⟩ 3 0 ≠ some 0 :=
  C7_sentinel ⟨2, 1, fun _ _ => 5⟩ 3 0 (by decide)

/-! ## Claim about the Scatter-Surface Estimator -/

/-- C9: the scatter-surface estimator fails with `InsufficientSamples` on
fewer than 4 dot samples, and for at least 4 samples whose positions are not
all collinear it produces a well-defined dense surface of exactly the
requested image shape, every pixel of which is the value of one 2nd-degree
polynomial in (row, col). -/
theorem C9_estimator (recs : List DotRec) (nr nc : ℕ) (useMedian : Bool) :
    (recs.length < 4 →
      compute_scatter_image_from_df recs nr nc useMedian =
        .error .insufficientSamples) ∧
    (4 ≤ recs.length → NonCollinear (recs.map (recSample useMedian)) →
      ∃ surf, compute_scatter_image_from_df recs nr nc useMedian = .ok surf ∧
        surf.nr = nr ∧ surf.nc = nc ∧
        ∃ w : Fin 6 → ℚ, ∀ r c,
          surf.px r c = ∑ j, w j * poly2Basis (r : ℚ) (c : ℚ) j) := by
  constructor
  · intro h
    unfold compute_scatter_image_from_df
    rw [if_pos h]
  · intro h _
    unfold compute_scatter_image_from_df
    rw [if_neg (not_lt.mpr h)]
    exact ⟨_, rfl, rfl, rfl,
      poly2Coeffs ((recs.map (recSample useMedian))), fun r c => rfl⟩

/-! ## Concrete evaluations

The witnesses and counterexamples below evaluate the pipeline on concrete
inputs; Batteries marks the rational arithmetic operations irreducible, so
they are made semireducible locally for kernel evaluation. -/

section ConcreteEvaluation

set_option allowUnsafeReducibility true
attribute [local semireducible] Rat.mul Rat.sub Rat.add Rat.div Rat.inv

/-- Witness for C1's amended theorem at a concrete well-behaved input. -/
theorem C1_witness :
    ∃ p, normalizeP ⟨1, 1, fun _ _ => 2⟩ (zeroImage 1 1) ⟨1, 1, fun _ _ => 4⟩
        ⟨0, 0, 1, 1⟩ = .ok p ∧ p.nr = 1 ∧ p.nc = 1 ∧
      ∀ r, r < 1 → ∀ c, c < 1 →
        p.px r c = (specNormP ⟨1, 1, fun _ _ => 2⟩ (zeroImage 1 1)
          ⟨1, 1, fun _ _ => 4⟩ ⟨0, 0, 1, 1⟩).px r c :=
  C1_formula_with_clamp ⟨1, 1, fun _ _ => 2⟩ (zeroImage 1 1) ⟨1, 1, fun _ _ => 4⟩
    ⟨0, 0, 1, 1⟩ ⟨rfl, rfl⟩ ⟨rfl, rfl⟩ (by decide) (by decide) (by decide)

/-- C1 counterexample: at a pixel whose dark-current-subtracted value is 1/2,
the implemented normalizer (which clamps that value to 1) differs from the
claim's closed formula: the log argument is 2/5 instead of 2/9. -/
theorem C1_counterexample :
    ∃ p, normalizeP ⟨1, 2, fun _ c => if c = 0 then 1/2 else 4⟩ (zeroImage 1 2)
        ⟨1, 2, fun _ _ => 4⟩ ⟨0, 0, 1, 2⟩ = .ok p ∧
      p.px 0 0 ≠ (specNormP ⟨1, 2, fun _ c => if c = 0 then 1/2 else 4⟩
        (zeroImage 1 2) ⟨1, 2, fun _ _ => 4⟩ ⟨0, 0, 1, 2⟩).px 0 0 := by
  have hok : normalize ⟨1, 2, fun _ c => if c = 0 then 1/2 else 4⟩ (zeroImage 1 2)
      ⟨1, 2, fun _ _ => 4⟩ ⟨0, 0, 1, 2⟩ =
      .ok (normArg ⟨1, 2, fun _ c => if c = 0 then 1/2 else 4⟩ (zeroImage 1 2)
        ⟨1, 2, fun _ _ => 4⟩ ⟨0, 0, 1, 2⟩) := by
    unfold normalize
    exact if_pos ⟨⟨rfl, rfl⟩, ⟨rfl, rfl⟩⟩
  refine ⟨_, by rw [normalizeP, hok]; rfl, ?_⟩
  have h1 : (normArg ⟨1, 2, fun _ c => if c = 0 then 1/2 else 4⟩ (zeroImage 1 2)
      ⟨1, 2, fun _ _ => 4⟩ ⟨0, 0, 1, 2⟩).px 0 0 = 2/5 := by decide
  have h2 : (((⟨1, 2, fun _ c => if c = 0 then 1/2 else 4⟩ : Image).px 0 0 -
        (zeroImage 1 2).px 0 0) /
        ((⟨1, 2, fun _ _ => 4⟩ : Image).px 0 0 - (zeroImage 1 2).px 0 0)) *
      (roiMean (imSub ⟨1, 2, fun _ _ => 4⟩ (zeroImage 1 2)) ⟨0, 0, 1, 2⟩ /
        roiMean (imSub ⟨1, 2, fun _ c => if c = 0 then 1/2 else 4⟩ (zeroImage 1 2))
          ⟨0, 0, 1, 2⟩) = 2/9 := by decide
  show -Real.log _ ≠ -Real.log _
  rw [h1, h2]
  have hlt : Real.log ((2/9 : ℚ) : ℝ) < Real.log ((2/5 : ℚ) : ℝ) := by
    have e9 : ((2/9 : ℚ) : ℝ) = (2/9 : ℝ) := by norm_num
    have e5 : ((2/5 : ℚ) : ℝ) = (2/5 : ℝ) := by norm_num
    rw [e9, e5]
    exact Real.log_lt_log (by norm_num) (by norm_num)
  exact fun hc => absurd (neg_injective hc) (ne_of_gt hlt)

/-- Witness for C4's amended theorem: a 3x1 mask with two single-pixel
components at rows 0 and 2, sampled with radius 1 on a 3x1 target image. -/
theorem C4_witness :
    get_bb_info ⟨3, 1, fun r _ => r == 0 || r == 2⟩ ⟨3, 1, fun r _ => (r : ℚ)⟩
        ⟨3, 1, fun r _ => r == 0 || r == 2⟩ 1 =
      .ok ((components ⟨3, 1, fun r _ => r == 0 || r == 2⟩).enum.map
        (recOf ⟨3, 1, fun r _ => (r : ℚ)⟩ 1)) ∧
    ((components ⟨3, 1, fun r _ => r == 0 || r == 2⟩).enum.map
        (recOf ⟨3, 1, fun r _ => (r : ℚ)⟩ 1)).length =
      (components ⟨3, 1, fun r _ => r == 0 || r == 2⟩).length ∧
    ∀ i, ∀ hi : i < ((components ⟨3, 1, fun r _ => r == 0 || r == 2⟩).enum.map
        (recOf ⟨3, 1, fun r _ => (r : ℚ)⟩ 1)).length,
      (((components ⟨3, 1, fun r _ => r == 0 || r == 2⟩).enum.map
        (recOf ⟨3, 1, fun r _ => (r : ℚ)⟩ 1)).get ⟨i, hi⟩).label = i + 1 :=
  C4_records ⟨3, 1, fun r _ => r == 0 || r == 2⟩ ⟨3, 1, fun r _ => (r : ℚ)⟩
    ⟨3, 1, fun r _ => r == 0 || r == 2⟩ 1 rfl (by decide)

/-- C2 exhibit of the bug: `get_bb_info` labels the captured notebook-global
`bbmask`, never its `mask` parameter — the result is the same whatever mask is
passed — and concretely, called with a global of one component and a passed
mask of two components, it reports one record, the global's component, not the
two components of the passed mask. -/
theorem C2_global_mask_bug :
    (∀ (bbmask : Mask) (img : Image) (mask mask' : Mask) (R : ℚ),
      get_bb_info bbmask img mask R = get_bb_info bbmask img mask' R) ∧
    (components ⟨3, 1, fun r _ => r == 0 || r == 2⟩ : List (List Pos)).length = 2 ∧
    get_bb_info ⟨3, 1, fun r _ => r == 0⟩ ⟨3, 1, fun r _ => (r : ℚ)⟩
        ⟨3, 1, fun r _ => r == 0 || r == 2⟩ 1 =
      .ok [{ label := 1, mean := 0, median := 0, r := 0, c := 0 }] := by
  refine ⟨fun _ _ _ _ _ => rfl, by decide, ?_⟩
  rfl

/-- C5 exhibit of the bug: for a dot whose radius-2 disk leaves a 2x1 image,
the `disk((x, y), R)` call (no `shape` argument) does not clip: the disk
contains the out-of-range row 2 as well as negative column indices (which
numpy wraps to the opposite edge), and `get_bb_info` raises `IndexError`
instead of returning a record. -/
theorem C5_unclipped_disk_bug :
    (2, 0) ∈ diskCoords (centR [(1, 0)]) (centC [(1, 0)]) 2 ∧
    (0, -1) ∈ diskCoords (centR [(1, 0)]) (centC [(1, 0)]) 2 ∧
    get_bb_info ⟨2, 1, fun r _ => r == 1⟩ ⟨2, 1, fun _ _ => 0⟩
        ⟨2, 1, fun r _ => r == 1⟩ 2 = .error "IndexError" := by
  refine ⟨by decide, by decide, ?_⟩
  rfl

/-- Witness for C8: two points with distinct thicknesses 0 and 1; the fit is
the exact line through them, slope 2 and intercept 0, of minimal residual. -/
theorem C8_witness :
    polyfit1 [((0 : ℚ), (0 : ℚ)), (1, 2)] = .ok (2, 0) ∧
    ∀ m' b', sse [((0 : ℚ), (0 : ℚ)), (1, 2)] 2 0 ≤
      sse [((0 : ℚ), (0 : ℚ)), (1, 2)] m' b' :=
  ⟨by decide, (C8_polyfit [((0 : ℚ), (0 : ℚ)), (1, 2)]).2 2 0 (by decide)⟩

/-- Witness for C9: four dot records at the corners of a unit square (not
collinear), a 5x7 target shape. -/
theorem C9_witness :
    ∃ surf, compute_scatter_image_from_df
        [⟨1, 0, 0, 0, 0⟩, ⟨2, 0, 0, 0, 1⟩, ⟨3, 0, 0, 1, 0⟩, ⟨4, 0, 0, 1, 1⟩]
        5 7 true = .ok surf ∧
      surf.nr = 5 ∧ surf.nc = 7 ∧
      ∃ w : Fin 6 → ℚ, ∀ r c,
        surf.px r c = ∑ j, w j * poly2Basis (r : ℚ) (c : ℚ) j :=
  (C9_estimator [⟨1, 0, 0, 0, 0⟩, ⟨2, 0, 0, 0, 1⟩, ⟨3, 0, 0, 1, 0⟩,
    ⟨4, 0, 0, 1, 1⟩] 5 7 true).2 (by decide) (by decide)

/-- C4 counterexample: called with a passed mask of two components (while the
captured notebook-global `bbmask` has one), `get_bb_info` returns a single
Dot Record — not one record per component of the mask passed to it. -/
theorem C4_counterexample :
    (components ⟨3, 1, fun r _ => r == 0 || r == 2⟩ : List (List Pos)).length = 2 ∧
    get_bb_info ⟨3, 1, fun r _ => r == 0⟩ ⟨3, 1, fun r _ => (r : ℚ)⟩
        ⟨3, 1, fun r _ => r == 0 || r == 2⟩ 1 =
      .ok [{ label := 1, mean := 0, median := 0, r := 0, c := 0 }] ∧
    ([{ label := 1, mean := 0, median := 0, r := 0, c := 0 }] : List DotRec).length ≠
      (components ⟨3, 1, fun r _ => r == 0 || r == 2⟩ : List (List Pos)).length := by
  refine ⟨by decide, by rfl, by decide⟩

end ConcreteEvaluation

end WaterInSand
